import Mathlib

/-!
Verification of the relocation-scanning and dynamic-table construction engine
of the mclinker X86 ELF backend (`lib/Target/X86/X86LDBackend.h`).

The repository ships only the backend's header: the `ReservedEntryType`
bitmask (the per-symbol reservation state) is concrete source code, while the
bodies of `scanRelocation`, `convertTLSIEtoLE`, `defineSymbolforCopyReloc`,
`emitSectionData` and `getTargetSectionOrder` are declared but their
implementations are not part of the sources.  Those behaviors are therefore
modelled from the specification, and each such definition carries a doc
comment saying so.
-/

namespace Mcld

/-! ## ReservedEntryType (from `X86LDBackend.h`, lines 63-72)

bit layout (header comment, lines 44-45): `| PLT | GOTRel | GOT | Rel |`,
PLT = bit 3, GOTRel = bit 2, GOT = bit 1, Rel = bit 0. -/

namespace ReservedEntryType

def None : Nat := 0

def ReserveRel : Nat := 1

def ReserveGOT : Nat := 2

def GOTandRel : Nat := 3

def GOTRel : Nat := 4

def GOTRelandRel : Nat := 5

def ReservePLT : Nat := 8

def PLTandRel : Nat := 9

end ReservedEntryType

/-! ## Relocation type codes used by the model (i386 ELF ABI values). -/

def R_386_GLOB_DAT : Nat := 6

def R_386_JMP_SLOT : Nat := 7

def R_386_COPY : Nat := 5

def R_386_TLS_IE : Nat := 15

def R_386_TLS_LE : Nat := 17

/-- Modelled from the spec (§3 Data Model): a relocation is a reference to a
symbol, a target offset, a type code, and an addend; the symbol is identified
by a numeric id into an external symbol table. -/
structure Relocation where
  symbol : Nat
  type : Nat
  offset : Nat
  addend : Int
deriving DecidableEq, Repr

/-- Modelled from the spec (§3, §6): the resolved-symbol facts the scanner
consults — binding locality, defined-in-final-binary, thread-local flag,
function-or-data, shared-object-data (copy-relocation eligibility), and
size/alignment for copy relocations. -/
structure SymbolInfo where
  isLocal : Bool
  isDefined : Bool
  isThreadLocal : Bool
  isFunction : Bool
  isSharedData : Bool
  size : Nat
  alignment : Nat
deriving DecidableEq, Repr

/-- Modelled from the spec (§6): link configuration indicating output mode
(static / shared / PIC). -/
structure LinkerConfig where
  isPIC : Bool
  isStatic : Bool
deriving DecidableEq, Repr

/-- The four reservation kinds of `ReservedEntryType`: dynamic relocation,
GOT, GOT-with-own-relocation, PLT. -/
inductive ReserveKind where
  | rel
  | got
  | gotRel
  | plt
deriving DecidableEq, Repr

/-- Bit index of each kind in the `ReservedEntryType` bitmask
(header lines 44-45). -/
def ReserveKind.idx : ReserveKind → Nat
  | .rel => 0
  | .got => 1
  | .gotRel => 2
  | .plt => 3

/-- Bit value of each kind, matching the enum values `ReserveRel = 1`,
`ReserveGOT = 2`, `GOTRel = 4`, `ReservePLT = 8`. -/
def ReserveKind.bit : ReserveKind → Nat
  | .rel => 1
  | .got => 2
  | .gotRel => 4
  | .plt => 8

/-- An entry of the PLT table: the shared PLT0 resolver trampoline, or a
per-symbol stub. -/
inductive PLTEntry where
  | plt0
  | stub (sym : Nat)
deriving DecidableEq, Repr

/-- Modelled from the spec (§3): a dynamic relocation record
(symbol, type, offset) destined for RelDyn or RelPLT. -/
structure DynRelRecord where
  sym : Nat
  type : Nat
  offset : Nat
deriving DecidableEq, Repr

/-- Modelled from the spec (§2, §3): the state the scan pass builds — the
per-symbol reservation bitmask side-table, the GOT / GOT-PLT / PLT tables,
the RelDyn and RelPLT dynamic-relocation sections (append-only, in
allocation order), the copy-symbol allocations and the size of the
uninitialized-data region. -/
structure LinkState where
  resState : Nat → Nat
  got : List Nat
  gotPLT : List Nat
  plt : List PLTEntry
  relDyn : List DynRelRecord
  relPLT : List DynRelRecord
  copies : Nat → Option (Nat × Nat)
  bssSize : Nat

/-- The state before the scan pass: empty tables except the PLT, whose entry
0 is the PLT0 resolver trampoline (always present, not symbol-indexed). -/
def initState : LinkState where
  resState := fun _ => ReservedEntryType.None
  got := []
  gotPLT := []
  plt := [.plt0]
  relDyn := []
  relPLT := []
  copies := fun _ => none
  bssSize := 0

/-- Modelled from the spec (§4.1-§4.3): the table allocation performed when a
reservation kind is granted for the first time — one RelDyn record for `rel`,
one GOT slot for `got`, one GOT slot plus its own RelDyn record for `gotRel`,
and one PLT stub + one GOT-PLT slot + one JUMP_SLOT record in RelPLT for
`plt`. -/
def allocateFor (st : LinkState) (r : Relocation) : ReserveKind → LinkState
  | .rel => { st with relDyn := st.relDyn ++ [⟨r.symbol, r.type, r.offset⟩] }
  | .got => { st with got := st.got ++ [r.symbol] }
  | .gotRel =>
      { st with got := st.got ++ [r.symbol],
                relDyn := st.relDyn ++ [⟨r.symbol, R_386_GLOB_DAT, st.got.length⟩] }
  | .plt =>
      { st with plt := st.plt ++ [.stub r.symbol],
                gotPLT := st.gotPLT ++ [r.symbol],
                relPLT := st.relPLT ++ [⟨r.symbol, R_386_JMP_SLOT, st.gotPLT.length⟩] }

/-- Modelled from the spec (§4.1, §4.2): granting a reservation first checks
the symbol's `ReservedEntryType` bitmask — a kind already reserved is not
re-allocated — then records the request by bitwise OR into the bitmask. -/
def reserve (st : LinkState) (r : Relocation) (k : ReserveKind) : LinkState :=
  let st' := if st.resState r.symbol &&& k.bit = 0 then allocateFor st r k else st
  { st' with
      resState := fun x =>
        if x = r.symbol then st'.resState x ||| k.bit else st'.resState x }

/-- Modelled from the spec (§4.1): the outcome of the architecture-specific
local/global scan handler for one relocation — no entry needed, a GOT entry,
a PLT entry, a copy relocation, or a plain dynamic relocation. -/
inductive HandlerDecision where
  | noEntry
  | needGOT
  | needPLT
  | needCopy
  | needRel
deriving DecidableEq, Repr

/-- Modelled from the spec (§4.1, §9): the per-architecture decision table is
a strategy capability selected at backend construction; it maps the linking
mode, the referenced symbol and the relocation type to a decision, or to
`none` when the relocation type is unrecognized for the target. -/
def Handler : Type :=
  LinkerConfig → SymbolInfo → Nat → Option HandlerDecision

/-- Modelled from the spec (§4.2): a GOT slot needs its own dynamic
relocation exactly when its content cannot be resolved at link time — the
output is position-independent or the symbol does not bind locally in the
final binary. -/
def gotNeedsRel (cfg : LinkerConfig) (sym : SymbolInfo) : Bool :=
  cfg.isPIC || !sym.isDefined

/-- Modelled from the spec (§4.6): `X86_32GNULDBackend::convertTLSIEtoLE`
rewrites the relocation's type from the initial-exec to the local-exec TLS
access model. -/
def convertTLSIEtoLE (r : Relocation) : Relocation :=
  { r with type := R_386_TLS_LE }

/-- Modelled from the spec (§4.6): the TLS relaxer fires exactly when the
relocation uses the initial-exec model on a thread-local symbol, the output
is not position-independent, and the symbol is defined within the final
binary. -/
def tlsRelaxApplies (cfg : LinkerConfig) (sym : SymbolInfo) (r : Relocation) : Bool :=
  sym.isThreadLocal && (r.type == R_386_TLS_IE) && !cfg.isPIC && sym.isDefined

/-- Round `n` up to the next multiple of the alignment `a`
(an alignment of 0 is treated as no constraint). -/
def alignUp (n a : Nat) : Nat :=
  if a = 0 then n else ((n + a - 1) / a) * a

/-- Modelled from the spec (§4.5): `defineSymbolforCopyReloc` allocates space
in the uninitialized-data region sized and aligned per the symbol's declared
size and alignment and records the copy symbol; a second call for the same
symbol returns the identical prior allocation. Returns the new state and the
copy symbol's (offset, size). -/
def defineSymbolforCopyReloc (st : LinkState) (s : Nat) (sym : SymbolInfo) :
    LinkState × Nat × Nat :=
  match st.copies s with
  | some a => (st, a)
  | none =>
      let off := alignUp st.bssSize sym.alignment
      ({ st with
           copies := fun x => if x = s then some (off, sym.size) else st.copies x,
           bssSize := off + sym.size },
       off, sym.size)

/-- Modelled from the spec (§4.5): `addCopyReloc` appends a copy relocation
record into RelDyn for the copy symbol. -/
def addCopyReloc (st : LinkState) (s : Nat) (off : Nat) : LinkState :=
  { st with relDyn := st.relDyn ++ [⟨s, R_386_COPY, off⟩] }

/-- The errors of the scan pass (spec §7): all fatal, aborting the link. -/
inductive ScanError where
  | UnsupportedRelocation
  | InvalidSymbolForCopyReloc
deriving DecidableEq, Repr

/-- Modelled from the spec (§4.1): `scanRelocation` classifies one relocation
through the handler and dispatches: no entry; a GOT entry (plain or with its
own dynamic relocation, per `gotNeedsRel`), preceded by the TLS relaxer's
opportunity to rewrite the relocation and skip the allocation; a PLT entry; a
copy relocation (guarded by the already-copied flag, failing on a symbol that
is not shared-object data); or a plain dynamic relocation.  An unrecognized
relocation type is a fatal `UnsupportedRelocation`.  Returns the updated
state and the (possibly rewritten) relocation. -/
def scanRelocation (handler : Handler) (cfg : LinkerConfig)
    (symOf : Nat → SymbolInfo) (st : LinkState) (r : Relocation) :
    Except ScanError (LinkState × Relocation) :=
  let sym := symOf r.symbol
  match handler cfg sym r.type with
  | none => .error .UnsupportedRelocation
  | some .noEntry => .ok (st, r)
  | some .needGOT =>
      if tlsRelaxApplies cfg sym r then
        .ok (st, convertTLSIEtoLE r)
      else if gotNeedsRel cfg sym then
        .ok (reserve st r .gotRel, r)
      else
        .ok (reserve st r .got, r)
  | some .needPLT => .ok (reserve st r .plt, r)
  | some .needCopy =>
      if sym.isSharedData then
        match st.copies r.symbol with
        | some _ => .ok (st, r)
        | none =>
            let p := defineSymbolforCopyReloc st r.symbol sym
            .ok (addCopyReloc p.1 r.symbol p.2.1, r)
      else
        .error .InvalidSymbolForCopyReloc
  | some .needRel => .ok (reserve st r .rel, r)

/-- Modelled from the spec (§5): the scan pass is one full fold over the
relocation stream in input order, aborting the whole link on the first fatal
error; it yields the final state and the (possibly rewritten) relocations. -/
def scanAll (handler : Handler) (cfg : LinkerConfig) (symOf : Nat → SymbolInfo) :
    LinkState → List Relocation → Except ScanError (LinkState × List Relocation)
  | st, [] => .ok (st, [])
  | st, r :: rs => do
      let p ← scanRelocation handler cfg symOf st r
      let q ← scanAll handler cfg symOf p.1 rs
      .ok (q.1, p.2 :: q.2)

/-- The reservation request one relocation makes, as a (symbol, kind) pair:
`none` when the scan reserves nothing for it (no entry needed, TLS-relaxed
access, copy relocation, or unrecognized type). -/
def requestOf (handler : Handler) (cfg : LinkerConfig) (symOf : Nat → SymbolInfo)
    (r : Relocation) : Option (Nat × ReserveKind) :=
  match handler cfg (symOf r.symbol) r.type with
  | none => none
  | some .noEntry => none
  | some .needGOT =>
      if tlsRelaxApplies cfg (symOf r.symbol) r then none
      else if gotNeedsRel cfg (symOf r.symbol) then some (r.symbol, .gotRel)
      else some (r.symbol, .got)
  | some .needPLT => some (r.symbol, .plt)
  | some .needCopy => none
  | some .needRel => some (r.symbol, .rel)

/-- The bits relocation `r` requests for symbol `s` (0 when it requests
nothing for `s`). -/
def reqBits (handler : Handler) (cfg : LinkerConfig) (symOf : Nat → SymbolInfo)
    (r : Relocation) (s : Nat) : Nat :=
  match requestOf handler cfg symOf r with
  | some p => if p.1 = s then p.2.bit else 0
  | none => 0

/-- Number of table entries of kind `k` held by symbol `s`: RelDyn records
for `rel`, GOT slots for `got` and `gotRel`, PLT stubs for `plt`. -/
def kindCount (k : ReserveKind) (s : Nat) (st : LinkState) : Nat :=
  match k with
  | .rel => (st.relDyn.filter (fun d => d.sym == s)).length
  | .got => st.got.count s
  | .gotRel => st.got.count s
  | .plt => (st.plt.filter (fun e => e == .stub s)).length

/-- The symbols holding PLT stubs, in allocation order. -/
def pltSyms (st : LinkState) : List Nat :=
  st.plt.filterMap (fun e => match e with | .plt0 => none | .stub s => some s)

/-! ## Layout order and emission -/

/-- The X86 target sections whose relative placement the backend decides. -/
inductive TargetSectionId where
  | relDynSec
  | relPLTSec
  | pltSec
  | gotSec
  | gotPLTSec
deriving DecidableEq, Repr

/-- Modelled from the spec (§4.8): `getTargetSectionOrder` is a deterministic
pure function from section identity to a placement key, placing each
relocation section before the table it describes per the i386 dynamic-linking
convention: `.rel.dyn`, `.rel.plt`, `.plt`, then `.got`, `.got.plt`. -/
def getTargetSectionOrder : TargetSectionId → Nat
  | .relDynSec => 1
  | .relPLTSec => 2
  | .pltSec => 3
  | .gotSec => 4
  | .gotPLTSec => 5

/-- Serialize a value into `w` bytes, least-significant byte first (the
target's little-endian byte order). -/
def toLEBytes : Nat → Nat → List Nat
  | 0, _ => []
  | w + 1, v => (v % 256) :: toLEBytes w (v / 256)

/-- Modelled from the spec (§4.9): the finalized contents of one target
section — a table of word-sized slots holding resolved addresses or zero
placeholders (`.got` / `.got.plt`, with the word width 4 or 8 per target),
or a list of raw code stubs (`.plt`). -/
inductive TargetSectionContents where
  | gotLike (entryWidth : Nat) (values : List Nat)
  | pltLike (stubs : List (List Nat))
deriving DecidableEq, Repr

/-- The section size frozen at the size-finalization step (spec §5, stage 3):
entry count times word width for a GOT-like table, total stub bytes for the
PLT. -/
def finalizedSize : TargetSectionContents → Nat
  | .gotLike w vs => w * vs.length
  | .pltLike stubs => (stubs.map List.length).sum

/-- The serialized bytes of a finalized target section, in allocation
order. -/
def serializeSection : TargetSectionContents → List Nat
  | .gotLike w vs => vs.flatMap (toLEBytes w)
  | .pltLike stubs => stubs.flatMap id

/-- The emission error of the spec's taxonomy (§7) raised by the emitter. -/
inductive EmitError where
  | SizeMismatch
deriving DecidableEq, Repr

/-- Modelled from the spec (§4.9): `emitSectionData` serializes the finalized
table into the caller-provided region and returns the byte count; when the
region's size does not equal the previously finalized section size it fails
with `SizeMismatch` and writes nothing. -/
def emitSectionData (sec : TargetSectionContents) (regionSize : Nat) :
    Except EmitError (List Nat × Nat) :=
  if regionSize = finalizedSize sec then
    let bytes := serializeSection sec
    .ok (bytes, bytes.length)
  else
    .error .SizeMismatch

/-! ## Reachability of scan states -/

/-- The states reachable from the pre-scan state by successful
`scanRelocation` steps, for a fixed handler, configuration and symbol
table. -/
inductive ScanReach (handler : Handler) (cfg : LinkerConfig)
    (symOf : Nat → SymbolInfo) : LinkState → Prop where
  | init : ScanReach handler cfg symOf initState
  | step {st st' : LinkState} {r r' : Relocation} :
      ScanReach handler cfg symOf st →
      scanRelocation handler cfg symOf st r = .ok (st', r') →
      ScanReach handler cfg symOf st'

/-! ## Basic lemmas on bits and on the reservation step -/

theorem ReserveKind.bit_eq_two_pow (k : ReserveKind) : k.bit = 2 ^ k.idx := by
  cases k <;> rfl

theorem land_two_pow_eq_zero_iff (m i : Nat) :
    m &&& 2 ^ i = 0 ↔ m.testBit i = false := by
  rw [Nat.and_two_pow]
  cases h : m.testBit i <;> simp [h, Nat.pow_eq_zero]

theorem land_bit_eq_zero_iff (m : Nat) (k : ReserveKind) :
    m &&& k.bit = 0 ↔ m.testBit k.idx = false := by
  rw [ReserveKind.bit_eq_two_pow]; exact land_two_pow_eq_zero_iff m k.idx

theorem testBit_lor_bit_self (m : Nat) (k : ReserveKind) :
    (m ||| k.bit).testBit k.idx = true := by
  rw [Nat.testBit_lor, ReserveKind.bit_eq_two_pow, Nat.testBit_two_pow_self,
    Bool.or_true]

theorem testBit_lor_bit_other (m : Nat) (k : ReserveKind) (i : Nat) (h : i ≠ k.idx) :
    (m ||| k.bit).testBit i = m.testBit i := by
  have h' : k.idx ≠ i := fun hh => h hh.symm
  rw [Nat.testBit_lor, ReserveKind.bit_eq_two_pow, Nat.testBit_two_pow]
  simp [h']

theorem allocateFor_resState (st : LinkState) (r : Relocation) (k : ReserveKind) :
    (allocateFor st r k).resState = st.resState := by
  cases k <;> rfl

theorem reserve_resState (st : LinkState) (r : Relocation) (k : ReserveKind)
    (x : Nat) :
    (reserve st r k).resState x =
      if x = r.symbol then st.resState x ||| k.bit else st.resState x := by
  by_cases h : st.resState r.symbol &&& k.bit = 0 <;>
    simp [reserve, h, allocateFor_resState]

theorem reserve_resState_self (st : LinkState) (r : Relocation) (k : ReserveKind) :
    (reserve st r k).resState r.symbol = st.resState r.symbol ||| k.bit := by
  rw [reserve_resState, if_pos rfl]

theorem reserve_of_bit_set (st : LinkState) (r : Relocation) (k : ReserveKind)
    (h : ¬ st.resState r.symbol &&& k.bit = 0) :
    (reserve st r k).got = st.got ∧ (reserve st r k).gotPLT = st.gotPLT ∧
    (reserve st r k).plt = st.plt ∧ (reserve st r k).relDyn = st.relDyn ∧
    (reserve st r k).relPLT = st.relPLT ∧ (reserve st r k).copies = st.copies ∧
    (reserve st r k).bssSize = st.bssSize := by
  simp [reserve, h]

theorem reserve_of_bit_clear (st : LinkState) (r : Relocation) (k : ReserveKind)
    (h : st.resState r.symbol &&& k.bit = 0) :
    (reserve st r k).got = (allocateFor st r k).got ∧
    (reserve st r k).gotPLT = (allocateFor st r k).gotPLT ∧
    (reserve st r k).plt = (allocateFor st r k).plt ∧
    (reserve st r k).relDyn = (allocateFor st r k).relDyn ∧
    (reserve st r k).relPLT = (allocateFor st r k).relPLT ∧
    (reserve st r k).copies = (allocateFor st r k).copies ∧
    (reserve st r k).bssSize = (allocateFor st r k).bssSize := by
  simp [reserve, h]

theorem defineSymbolforCopyReloc_resState (st : LinkState) (s : Nat)
    (sym : SymbolInfo) :
    (defineSymbolforCopyReloc st s sym).1.resState = st.resState := by
  unfold defineSymbolforCopyReloc
  cases h : st.copies s <;> simp

theorem defineSymbolforCopyReloc_tables (st : LinkState) (s : Nat)
    (sym : SymbolInfo) :
    (defineSymbolforCopyReloc st s sym).1.got = st.got ∧
    (defineSymbolforCopyReloc st s sym).1.gotPLT = st.gotPLT ∧
    (defineSymbolforCopyReloc st s sym).1.plt = st.plt ∧
    (defineSymbolforCopyReloc st s sym).1.relDyn = st.relDyn ∧
    (defineSymbolforCopyReloc st s sym).1.relPLT = st.relPLT := by
  unfold defineSymbolforCopyReloc
  cases h : st.copies s <;> simp

theorem addCopyReloc_fields (st : LinkState) (s off : Nat) :
    (addCopyReloc st s off).resState = st.resState ∧
    (addCopyReloc st s off).got = st.got ∧
    (addCopyReloc st s off).gotPLT = st.gotPLT ∧
    (addCopyReloc st s off).plt = st.plt ∧
    (addCopyReloc st s off).relPLT = st.relPLT := by
  simp [addCopyReloc]

/-! ## Characterization of one scan step -/

theorem scan_of_request (handler : Handler) (cfg : LinkerConfig)
    (symOf : Nat → SymbolInfo) (st : LinkState) (r : Relocation) (s : Nat)
    (k : ReserveKind) (hreq : requestOf handler cfg symOf r = some (s, k)) :
    s = r.symbol ∧
    scanRelocation handler cfg symOf st r = .ok (reserve st r k, r) := by
  unfold requestOf at hreq
  unfold scanRelocation
  cases hdec : handler cfg (symOf r.symbol) r.type with
  | none => rw [hdec] at hreq; exact absurd hreq (by simp)
  | some d =>
    rw [hdec] at hreq
    cases d with
    | noEntry => exact absurd hreq (by simp)
    | needCopy => exact absurd hreq (by simp)
    | needPLT =>
        simp only [Option.some.injEq, Prod.mk.injEq] at hreq
        simp [hdec, ← hreq.1, ← hreq.2]
    | needRel =>
        simp only [Option.some.injEq, Prod.mk.injEq] at hreq
        simp [hdec, ← hreq.1, ← hreq.2]
    | needGOT =>
        by_cases htls : tlsRelaxApplies cfg (symOf r.symbol) r
        · rw [if_pos htls] at hreq; exact absurd hreq (by simp)
        · rw [if_neg htls] at hreq
          by_cases hrel : gotNeedsRel cfg (symOf r.symbol)
          · rw [if_pos hrel] at hreq
            simp only [Option.some.injEq, Prod.mk.injEq] at hreq
            simp [hdec, htls, hrel, ← hreq.1, ← hreq.2]
          · rw [if_neg hrel] at hreq
            simp only [Option.some.injEq, Prod.mk.injEq] at hreq
            simp [hdec, htls, hrel, ← hreq.1, ← hreq.2]

theorem scanRelocation_ok_cases (handler : Handler) (cfg : LinkerConfig)
    (symOf : Nat → SymbolInfo) (st st' : LinkState) (r r' : Relocation)
    (hok : scanRelocation handler cfg symOf st r = .ok (st', r')) :
    (∃ k : ReserveKind, requestOf handler cfg symOf r = some (r.symbol, k) ∧
        st' = reserve st r k ∧ r' = r ∧
        (k = .got → gotNeedsRel cfg (symOf r.symbol) = false) ∧
        (k = .gotRel → gotNeedsRel cfg (symOf r.symbol) = true)) ∨
    (requestOf handler cfg symOf r = none ∧ st'.resState = st.resState ∧
        st'.got = st.got ∧ st'.gotPLT = st.gotPLT ∧ st'.plt = st.plt ∧
        st'.relPLT = st.relPLT) := by
  simp only [scanRelocation] at hok
  unfold requestOf
  cases hdec : handler cfg (symOf r.symbol) r.type with
  | none => rw [hdec] at hok; exact absurd hok (by simp)
  | some d =>
    rw [hdec] at hok
    cases d with
    | noEntry =>
        simp only [Except.ok.injEq, Prod.mk.injEq] at hok
        exact Or.inr ⟨rfl, by rw [← hok.1], by rw [← hok.1], by rw [← hok.1],
          by rw [← hok.1], by rw [← hok.1]⟩
    | needPLT =>
        simp only [Except.ok.injEq, Prod.mk.injEq] at hok
        exact Or.inl ⟨.plt, rfl, hok.1.symm, hok.2.symm, by simp, by simp⟩
    | needRel =>
        simp only [Except.ok.injEq, Prod.mk.injEq] at hok
        exact Or.inl ⟨.rel, rfl, hok.1.symm, hok.2.symm, by simp, by simp⟩
    | needGOT =>
        by_cases htls : tlsRelaxApplies cfg (symOf r.symbol) r
        · rw [if_pos htls] at hok
          simp only [Except.ok.injEq, Prod.mk.injEq] at hok
          refine Or.inr ⟨by rw [if_pos htls], ?_, ?_, ?_, ?_, ?_⟩ <;> rw [← hok.1]
        · rw [if_neg htls] at hok
          by_cases hrel : gotNeedsRel cfg (symOf r.symbol)
          · rw [if_pos hrel] at hok
            simp only [Except.ok.injEq, Prod.mk.injEq] at hok
            exact Or.inl ⟨.gotRel, by rw [if_neg htls, if_pos hrel],
              hok.1.symm, hok.2.symm, by simp, fun _ => hrel⟩
          · rw [if_neg hrel] at hok
            simp only [Except.ok.injEq, Prod.mk.injEq] at hok
            exact Or.inl ⟨.got, by rw [if_neg htls, if_neg hrel],
              hok.1.symm, hok.2.symm, fun _ => by simpa using hrel, by simp⟩
    | needCopy =>
        by_cases hsh : (symOf r.symbol).isSharedData
        · rw [if_pos hsh] at hok
          cases hcp : st.copies r.symbol with
          | some a =>
              rw [hcp] at hok
              simp only [Except.ok.injEq, Prod.mk.injEq] at hok
              exact Or.inr ⟨rfl, by rw [← hok.1], by rw [← hok.1],
                by rw [← hok.1], by rw [← hok.1], by rw [← hok.1]⟩
          | none =>
              rw [hcp] at hok
              simp only [Except.ok.injEq, Prod.mk.injEq] at hok
              refine Or.inr ⟨rfl, ?_, ?_, ?_, ?_, ?_⟩ <;> rw [← hok.1]
              · rw [(addCopyReloc_fields _ _ _).1,
                  defineSymbolforCopyReloc_resState]
              · rw [(addCopyReloc_fields _ _ _).2.1,
                  (defineSymbolforCopyReloc_tables _ _ _).1]
              · rw [(addCopyReloc_fields _ _ _).2.2.1,
                  (defineSymbolforCopyReloc_tables _ _ _).2.1]
              · rw [(addCopyReloc_fields _ _ _).2.2.2.1,
                  (defineSymbolforCopyReloc_tables _ _ _).2.2.1]
              · rw [(addCopyReloc_fields _ _ _).2.2.2.2,
                  (defineSymbolforCopyReloc_tables _ _ _).2.2.2.2]
        · rw [if_neg hsh] at hok
          exact absurd hok (by simp)

/-! ## Lemmas on entry counts -/

theorem kindCount_eq_of_fields (st st' : LinkState) (hg : st'.got = st.got)
    (hd : st'.relDyn = st.relDyn) (hp : st'.plt = st.plt) (k : ReserveKind)
    (s : Nat) : kindCount k s st' = kindCount k s st := by
  cases k <;> simp [kindCount, hg, hd, hp]

theorem kindCount_reserve_of_set (st : LinkState) (r : Relocation)
    (k : ReserveKind) (h : ¬ st.resState r.symbol &&& k.bit = 0)
    (k' : ReserveKind) (s : Nat) :
    kindCount k' s (reserve st r k) = kindCount k' s st := by
  obtain ⟨hg, _, hp, hd, _⟩ := reserve_of_bit_set st r k h
  exact kindCount_eq_of_fields st _ hg hd hp k' s

theorem kindCount_reserve_of_clear (st : LinkState) (r : Relocation)
    (k : ReserveKind) (h : st.resState r.symbol &&& k.bit = 0) :
    kindCount k r.symbol (reserve st r k) = kindCount k r.symbol st + 1 := by
  obtain ⟨hg, _, hp, hd, _⟩ := reserve_of_bit_clear st r k h
  cases k with
  | rel => simp [kindCount, hd, allocateFor, List.filter_append]
  | got => simp [kindCount, hg, allocateFor]
  | gotRel => simp [kindCount, hg, allocateFor]
  | plt => simp [kindCount, hp, allocateFor, List.filter_append]

/-! ## Lemmas on the full scan fold -/

theorem scanAll_cons (handler : Handler) (cfg : LinkerConfig)
    (symOf : Nat → SymbolInfo) (st : LinkState) (r : Relocation)
    (rs : List Relocation) :
    scanAll handler cfg symOf st (r :: rs) =
      (scanRelocation handler cfg symOf st r).bind fun p =>
        (scanAll handler cfg symOf p.1 rs).bind fun q =>
          .ok (q.1, p.2 :: q.2) := rfl

theorem scanAll_cons_ok (handler : Handler) (cfg : LinkerConfig)
    (symOf : Nat → SymbolInfo) (st st' : LinkState) (r : Relocation)
    (rs : List Relocation) (out : List Relocation)
    (h : scanAll handler cfg symOf st (r :: rs) = .ok (st', out)) :
    ∃ st1 r1 out1, scanRelocation handler cfg symOf st r = .ok (st1, r1) ∧
      scanAll handler cfg symOf st1 rs = .ok (st', out1) ∧ out = r1 :: out1 := by
  rw [scanAll_cons] at h
  cases h1 : scanRelocation handler cfg symOf st r with
  | error e => rw [h1] at h; exact absurd h (by simp [Except.bind])
  | ok p =>
    obtain ⟨st1, r1⟩ := p
    rw [h1] at h
    simp only [Except.bind] at h
    cases h2 : scanAll handler cfg symOf st1 rs with
    | error e => rw [h2] at h; exact absurd h (by simp [Except.bind])
    | ok q =>
      obtain ⟨st2, out2⟩ := q
      rw [h2] at h
      simp only [Except.bind, Except.ok.injEq, Prod.mk.injEq] at h
      exact ⟨st1, r1, out2, rfl, h.1 ▸ h2, h.2.symm⟩

theorem scanAll_resState (handler : Handler) (cfg : LinkerConfig)
    (symOf : Nat → SymbolInfo) (rs : List Relocation) (st st' : LinkState)
    (out : List Relocation)
    (h : scanAll handler cfg symOf st rs = .ok (st', out)) (x : Nat) :
    st'.resState x =
      List.foldl (fun m r => m ||| reqBits handler cfg symOf r x)
        (st.resState x) rs := by
  induction rs generalizing st out with
  | nil =>
      simp only [scanAll, Except.ok.injEq, Prod.mk.injEq] at h
      rw [← h.1]
      rfl
  | cons r rest ih =>
      obtain ⟨st1, r1, out1, h1, h2, _⟩ := scanAll_cons_ok _ _ _ _ _ _ _ _ h
      have hstep : st1.resState x = st.resState x ||| reqBits handler cfg symOf r x := by
        rcases scanRelocation_ok_cases _ _ _ _ _ _ _ h1 with
          ⟨k, hreq, hst, _, _, _⟩ | ⟨hreq, hres, _⟩
        · subst hst
          rw [reserve_resState]
          simp only [reqBits, hreq]
          by_cases hx : x = r.symbol
          · subst hx; simp
          · have hx' : ¬ r.symbol = x := fun hh => hx hh.symm
            simp [hx, hx']
        · rw [hres]
          simp [reqBits, hreq]
      rw [List.foldl_cons, ← hstep]
      exact ih st1 out1 h2

theorem bit_set_after_reserve (st : LinkState) (r : Relocation) (k : ReserveKind) :
    ¬ (reserve st r k).resState r.symbol &&& k.bit = 0 := by
  rw [land_bit_eq_zero_iff, reserve_resState_self, testBit_lor_bit_self]
  simp

theorem scanAll_count_of_bit_set (handler : Handler) (cfg : LinkerConfig)
    (symOf : Nat → SymbolInfo) (s : Nat) (k : ReserveKind)
    (rs : List Relocation) :
    ∀ st st' out, (∀ r ∈ rs, requestOf handler cfg symOf r = some (s, k)) →
      ¬ st.resState s &&& k.bit = 0 →
      scanAll handler cfg symOf st rs = .ok (st', out) →
      kindCount k s st' = kindCount k s st ∧ ¬ st'.resState s &&& k.bit = 0 := by
  induction rs with
  | nil =>
      intro st st' out _ hbit hscan
      simp only [scanAll, Except.ok.injEq, Prod.mk.injEq] at hscan
      rw [← hscan.1]
      exact ⟨rfl, hbit⟩
  | cons r rest ih =>
      intro st st' out hreq hbit hscan
      obtain ⟨st1, r1, out1, h1, h2, _⟩ := scanAll_cons_ok _ _ _ _ _ _ _ _ hscan
      obtain ⟨hs, hstep⟩ :=
        scan_of_request handler cfg symOf st r s k (hreq r (by simp))
      rw [hstep] at h1
      simp only [Except.ok.injEq, Prod.mk.injEq] at h1
      subst hs
      have hbit1 : ¬ st1.resState r.symbol &&& k.bit = 0 := by
        rw [← h1.1]; exact bit_set_after_reserve st r k
      have hcnt1 : kindCount k r.symbol st1 = kindCount k r.symbol st := by
        rw [← h1.1]; exact kindCount_reserve_of_set st r k hbit _ _
      obtain ⟨hc, hb⟩ := ih st1 st' out1
        (fun r2 hr2 => hreq r2 (by simp [hr2])) hbit1 h2
      exact ⟨hc.trans hcnt1, hb⟩

/-- C1: for a symbol referenced by N ≥ 1 relocations that all request the
same reservation kind, scanning all of them allocates exactly one entry of
that kind for the symbol, regardless of N and of the order in which the
relocations appear in the stream; one more `scanRelocation`-style
reservation for a kind already reserved does not allocate a second entry. -/
theorem scan_idempotent_reservation (handler : Handler) (cfg : LinkerConfig)
    (symOf : Nat → SymbolInfo) (s : Nat) (k : ReserveKind)
    (rs : List Relocation) (st st' : LinkState) (out : List Relocation)
    (r2 : Relocation)
    (hne : rs ≠ [])
    (hreq : ∀ r ∈ rs, requestOf handler cfg symOf r = some (s, k))
    (hbit : st.resState s &&& k.bit = 0)
    (hcount : kindCount k s st = 0)
    (hscan : scanAll handler cfg symOf st rs = .ok (st', out))
    (hreq2 : requestOf handler cfg symOf r2 = some (s, k)) :
    kindCount k s st' = 1 ∧ kindCount k s (reserve st' r2 k) = 1 := by
  cases rs with
  | nil => exact absurd rfl hne
  | cons r rest =>
      obtain ⟨st1, r1, out1, h1, h2, _⟩ := scanAll_cons_ok _ _ _ _ _ _ _ _ hscan
      obtain ⟨hs, hstep⟩ :=
        scan_of_request handler cfg symOf st r s k (hreq r (by simp))
      rw [hstep] at h1
      simp only [Except.ok.injEq, Prod.mk.injEq] at h1
      subst hs
      have hbit1 : ¬ st1.resState r.symbol &&& k.bit = 0 := by
        rw [← h1.1]; exact bit_set_after_reserve st r k
      have hcnt1 : kindCount k r.symbol st1 = 1 := by
        rw [← h1.1, kindCount_reserve_of_clear st r k hbit, hcount]
      obtain ⟨hc, hb⟩ := scanAll_count_of_bit_set handler cfg symOf r.symbol k rest
        st1 st' out1 (fun r3 hr3 => hreq r3 (by simp [hr3])) hbit1 h2
      have hfin : kindCount k r.symbol st' = 1 := hc.trans hcnt1
      have hs2 : r.symbol = r2.symbol :=
        (scan_of_request handler cfg symOf st' r2 r.symbol k hreq2).1
      refine ⟨hfin, ?_⟩
      rw [kindCount_reserve_of_set st' r2 k ?_ k r.symbol]
      · exact hfin
      · rw [← hs2]; exact hb

theorem scanStep_resState (handler : Handler) (cfg : LinkerConfig)
    (symOf : Nat → SymbolInfo) (st st1 : LinkState) (r r1 : Relocation)
    (h1 : scanRelocation handler cfg symOf st r = .ok (st1, r1)) (x : Nat) :
    st1.resState x = st.resState x ||| reqBits handler cfg symOf r x := by
  rcases scanRelocation_ok_cases _ _ _ _ _ _ _ h1 with
    ⟨k, hreq, hst, _, _, _⟩ | ⟨hreq, hres, _⟩
  · subst hst
    rw [reserve_resState]
    simp only [reqBits, hreq]
    by_cases hx : x = r.symbol
    · subst hx; simp
    · have hx' : ¬ r.symbol = x := fun hh => hx hh.symm
      simp [hx, hx']
  · rw [hres]
    simp [reqBits, hreq]

/-- C2: each scan step updates a symbol's reservation state only by bitwise
OR with the bits the relocation requests — so no step ever clears a bit set
by an earlier request — and across the whole scan pass from the pre-scan
state the reservation state of a symbol equals the bitwise union of all
reservation requests made for it. -/
theorem reservationState_is_union_of_requests (handler : Handler)
    (cfg : LinkerConfig) (symOf : Nat → SymbolInfo) (st st1 stf : LinkState)
    (r r1 : Relocation) (rs outf : List Relocation) (x i : Nat)
    (hstep : scanRelocation handler cfg symOf st r = .ok (st1, r1))
    (hscan : scanAll handler cfg symOf initState rs = .ok (stf, outf)) :
    st1.resState x = st.resState x ||| reqBits handler cfg symOf r x ∧
    ((st.resState x).testBit i = true → (st1.resState x).testBit i = true) ∧
    stf.resState x =
      List.foldl (fun m r2 => m ||| reqBits handler cfg symOf r2 x) 0 rs := by
  refine ⟨scanStep_resState _ _ _ _ _ _ _ hstep x, ?_, ?_⟩
  · intro hi
    rw [scanStep_resState _ _ _ _ _ _ _ hstep x, Nat.testBit_lor, hi,
      Bool.true_or]
  · exact scanAll_resState _ _ _ _ _ _ _ hscan x

/-- C3: scanning a multiset of relocations in any permutation of their order
yields an identical final reservation-state bitmask for every symbol. -/
theorem scan_order_independence (handler : Handler) (cfg : LinkerConfig)
    (symOf : Nat → SymbolInfo) (st st1 st2 : LinkState)
    (rs1 rs2 out1 out2 : List Relocation) (x : Nat)
    (hperm : rs1.Perm rs2)
    (h1 : scanAll handler cfg symOf st rs1 = .ok (st1, out1))
    (h2 : scanAll handler cfg symOf st rs2 = .ok (st2, out2)) :
    st1.resState x = st2.resState x := by
  rw [scanAll_resState _ _ _ _ _ _ _ h1 x, scanAll_resState _ _ _ _ _ _ _ h2 x]
  haveI : RightCommutative (fun m r2 => m ||| reqBits handler cfg symOf r2 x) :=
    ⟨fun m a b => by
      simp only [Nat.lor_assoc]
      rw [Nat.lor_comm (reqBits handler cfg symOf a x)]⟩
  exact hperm.foldl_eq _

/-- C4: on the 32-bit backend, for an initial-exec TLS relocation on a
thread-local symbol whose handler decision is a GOT entry: when the output is
non-PIC and the symbol is defined in the final binary, the relaxer rewrites
the relocation type to local-exec before the GOT allocation decision and the
state is left untouched (zero GOT entries reserved); when the output is
PIC/shared or the symbol is not locally defined, the relocation type is
unchanged and a GOT entry is reserved via the ordinary path. -/
theorem convertTLSIEtoLE_gating (handler : Handler) (cfg : LinkerConfig)
    (symOf : Nat → SymbolInfo) (st : LinkState) (r : Relocation)
    (hdec : handler cfg (symOf r.symbol) r.type = some .needGOT)
    (htls : (symOf r.symbol).isThreadLocal = true)
    (hty : r.type = R_386_TLS_IE) :
    (cfg.isPIC = false → (symOf r.symbol).isDefined = true →
      scanRelocation handler cfg symOf st r = .ok (st, convertTLSIEtoLE r) ∧
      (convertTLSIEtoLE r).type = R_386_TLS_LE) ∧
    (cfg.isPIC = true ∨ (symOf r.symbol).isDefined = false →
      scanRelocation handler cfg symOf st r = .ok (reserve st r .gotRel, r) ∧
      ((reserve st r .gotRel).resState r.symbol).testBit
        ReserveKind.gotRel.idx = true ∧
      (st.resState r.symbol &&& ReserveKind.gotRel.bit = 0 →
        (reserve st r .gotRel).got = st.got ++ [r.symbol])) := by
  constructor
  · intro hpic hdef
    have hrelax : tlsRelaxApplies cfg (symOf r.symbol) r = true := by
      simp [tlsRelaxApplies, htls, hty, hpic, hdef]
    refine ⟨?_, rfl⟩
    simp only [scanRelocation]
    rw [hdec, if_pos hrelax]
  · intro hc
    have hrelax : tlsRelaxApplies cfg (symOf r.symbol) r = false := by
      rcases hc with hpic | hdef
      · simp [tlsRelaxApplies, hpic]
      · simp [tlsRelaxApplies, hdef]
    have hrel : gotNeedsRel cfg (symOf r.symbol) = true := by
      rcases hc with hpic | hdef
      · simp [gotNeedsRel, hpic]
      · simp [gotNeedsRel, hdef]
    refine ⟨?_, ?_, ?_⟩
    · simp only [scanRelocation]
      rw [hdec, if_neg (by simp [hrelax]), if_pos hrel]
    · rw [reserve_resState_self]
      exact testBit_lor_bit_self _ _
    · intro hbit
      rw [(reserve_of_bit_clear st r .gotRel hbit).1]
      rfl

theorem scanAll_append_error (handler : Handler) (cfg : LinkerConfig)
    (symOf : Nat → SymbolInfo) (e : ScanError) :
    ∀ pre st st1 out1 r post,
      scanAll handler cfg symOf st pre = .ok (st1, out1) →
      scanRelocation handler cfg symOf st1 r = .error e →
      scanAll handler cfg symOf st (pre ++ r :: post) = .error e := by
  intro pre
  induction pre with
  | nil =>
      intro st st1 out1 r post hpre hstep
      simp only [scanAll, Except.ok.injEq, Prod.mk.injEq] at hpre
      obtain ⟨h1, _⟩ := hpre
      subst h1
      rw [List.nil_append, scanAll_cons, hstep]
      rfl
  | cons p rest ih =>
      intro st st1 out1 r post hpre hstep
      obtain ⟨stp, p1, outp, h1, h2, _⟩ := scanAll_cons_ok _ _ _ _ _ _ _ _ hpre
      rw [List.cons_append, scanAll_cons, h1]
      simp only [Except.bind]
      rw [ih stp st1 outp r post h2 hstep]

/-- C5: a relocation whose type the architecture handler does not recognize
makes `scanRelocation` fail with `UnsupportedRelocation`, and the error is
fatal: a scan pass whose stream contains such a relocation aborts with
`UnsupportedRelocation` instead of producing a final state (no table
allocation or reservation-state update results from it). -/
theorem unsupported_relocation_aborts (handler : Handler) (cfg : LinkerConfig)
    (symOf : Nat → SymbolInfo) (st st1 : LinkState) (r : Relocation)
    (pre post out1 : List Relocation)
    (hdec : handler cfg (symOf r.symbol) r.type = none)
    (hpre : scanAll handler cfg symOf st pre = .ok (st1, out1)) :
    scanRelocation handler cfg symOf st1 r = .error .UnsupportedRelocation ∧
    scanAll handler cfg symOf st (pre ++ r :: post) =
      .error .UnsupportedRelocation := by
  have hstep : scanRelocation handler cfg symOf st1 r =
      .error .UnsupportedRelocation := by
    simp only [scanRelocation]
    rw [hdec]
  exact ⟨hstep,
    scanAll_append_error handler cfg symOf _ pre st st1 out1 r post hpre hstep⟩

/-- C6: materializing a copy symbol twice for the same symbol returns the
identical prior allocation — the same (offset, size) pair — and the second
call changes nothing, so at most one copy symbol is ever created per
original symbol. -/
theorem defineSymbolforCopyReloc_stable (st : LinkState) (s : Nat)
    (sym : SymbolInfo) :
    (defineSymbolforCopyReloc (defineSymbolforCopyReloc st s sym).1 s sym).2 =
      (defineSymbolforCopyReloc st s sym).2 ∧
    (defineSymbolforCopyReloc (defineSymbolforCopyReloc st s sym).1 s sym).1 =
      (defineSymbolforCopyReloc st s sym).1 := by
  cases h : st.copies s with
  | some a => constructor <;> simp [defineSymbolforCopyReloc, h]
  | none => constructor <;> simp [defineSymbolforCopyReloc, h]

/-! ## The scan invariant: PLT structure and reservation-state consistency -/

theorem testBit_reserve_of_ne_idx (st : LinkState) (r : Relocation)
    (k : ReserveKind) (s i : Nat) (hi : i ≠ k.idx) :
    ((reserve st r k).resState s).testBit i = (st.resState s).testBit i := by
  rw [reserve_resState]
  by_cases hx : s = r.symbol
  · rw [if_pos hx]; exact testBit_lor_bit_other _ k i hi
  · rw [if_neg hx]

theorem resState_reserve_other (st : LinkState) (r : Relocation)
    (k : ReserveKind) (s : Nat) (hx : ¬ s = r.symbol) :
    (reserve st r k).resState s = st.resState s := by
  rw [reserve_resState, if_neg hx]

theorem reserve_pltFields_nonplt (st : LinkState) (r : Relocation)
    (k : ReserveKind) (hk : k ≠ ReserveKind.plt) :
    (reserve st r k).plt = st.plt ∧ (reserve st r k).gotPLT = st.gotPLT ∧
    (reserve st r k).relPLT = st.relPLT := by
  by_cases h : st.resState r.symbol &&& k.bit = 0
  · obtain ⟨_, hgp, hp, _, hrp, _⟩ := reserve_of_bit_clear st r k h
    cases k with
    | plt => exact absurd rfl hk
    | rel => exact ⟨hp, hgp, hrp⟩
    | got => exact ⟨hp, hgp, hrp⟩
    | gotRel => exact ⟨hp, hgp, hrp⟩
  · obtain ⟨_, hgp, hp, _, hrp, _⟩ := reserve_of_bit_set st r k h
    exact ⟨hp, hgp, hrp⟩

theorem reserve_plt_clear_fields (st : LinkState) (r : Relocation)
    (h : st.resState r.symbol &&& ReserveKind.plt.bit = 0) :
    (reserve st r .plt).plt = st.plt ++ [.stub r.symbol] ∧
    (reserve st r .plt).gotPLT = st.gotPLT ++ [r.symbol] ∧
    (reserve st r .plt).relPLT =
      st.relPLT ++ [⟨r.symbol, R_386_JMP_SLOT, st.gotPLT.length⟩] := by
  obtain ⟨_, hgp, hp, _, hrp, _⟩ := reserve_of_bit_clear st r .plt h
  exact ⟨hp, hgp, hrp⟩

theorem pltSyms_eq_of_plt_eq (st st' : LinkState) (h : st'.plt = st.plt) :
    pltSyms st' = pltSyms st := by
  unfold pltSyms; rw [h]

theorem pltSyms_reserve_plt_clear (st : LinkState) (r : Relocation)
    (h : st.resState r.symbol &&& ReserveKind.plt.bit = 0) :
    pltSyms (reserve st r .plt) = pltSyms st ++ [r.symbol] := by
  unfold pltSyms
  rw [(reserve_plt_clear_fields st r h).1, List.filterMap_append]
  rfl

/-- The invariant every scan step preserves: the PLT is the PLT0 trampoline
followed by one stub per symbol in allocation order, those symbols are
distinct and in 1:1 correspondence (in order) with RelPLT's JUMP_SLOT
records and with the GOT-PLT slots, a symbol holds a PLT stub exactly when
its PLT reservation bit is set, and a symbol's plain-GOT / GOT-with-rel
reservation bits agree with the per-symbol GOT flavour `gotNeedsRel`. -/
def ScanInv (cfg : LinkerConfig) (symOf : Nat → SymbolInfo) (st : LinkState) :
    Prop :=
  st.plt = PLTEntry.plt0 :: (pltSyms st).map PLTEntry.stub ∧
  (pltSyms st).Nodup ∧
  st.relPLT.map DynRelRecord.sym = pltSyms st ∧
  (∀ d ∈ st.relPLT, d.type = R_386_JMP_SLOT) ∧
  st.gotPLT = pltSyms st ∧
  (∀ s, s ∈ pltSyms st ↔ (st.resState s).testBit 3 = true) ∧
  (∀ s, (st.resState s).testBit 1 = true → gotNeedsRel cfg (symOf s) = false) ∧
  (∀ s, (st.resState s).testBit 2 = true → gotNeedsRel cfg (symOf s) = true)

theorem scanInv_init (cfg : LinkerConfig) (symOf : Nat → SymbolInfo) :
    ScanInv cfg symOf initState := by
  refine ⟨rfl, ?_, rfl, ?_, rfl, ?_, ?_, ?_⟩
  · simp [pltSyms, initState]
  · intro d hd; simp [initState] at hd
  · intro s
    simp [pltSyms, initState, ReservedEntryType.None, Nat.zero_testBit]
  · intro s
    simp [initState, ReservedEntryType.None, Nat.zero_testBit] at *
  · intro s
    simp [initState, ReservedEntryType.None, Nat.zero_testBit] at *

theorem scanInv_step (handler : Handler) (cfg : LinkerConfig)
    (symOf : Nat → SymbolInfo) (st st' : LinkState) (r r' : Relocation)
    (hok : scanRelocation handler cfg symOf st r = .ok (st', r'))
    (hinv : ScanInv cfg symOf st) : ScanInv cfg symOf st' := by
  obtain ⟨i1, i2, i3, i4, i5, i6, i7, i8⟩ := hinv
  rcases scanRelocation_ok_cases _ _ _ _ _ _ _ hok with
    ⟨k, _, hst, _, hgotF, hgotRelF⟩ | ⟨_, hres, _, hgp, hp, hrp⟩
  · subst hst
    cases k with
    | rel =>
        obtain ⟨hp, hgp, hrp⟩ :=
          reserve_pltFields_nonplt st r .rel (by simp)
        have hps := pltSyms_eq_of_plt_eq _ _ hp
        refine ⟨by rw [hp, hps]; exact i1, by rw [hps]; exact i2,
          by rw [hrp, hps]; exact i3, by rw [hrp]; exact i4,
          by rw [hgp, hps]; exact i5, ?_, ?_, ?_⟩
        · intro s
          rw [hps, testBit_reserve_of_ne_idx st r .rel s 3 (by decide)]
          exact i6 s
        · intro s hb
          rw [testBit_reserve_of_ne_idx st r .rel s 1 (by decide)] at hb
          exact i7 s hb
        · intro s hb
          rw [testBit_reserve_of_ne_idx st r .rel s 2 (by decide)] at hb
          exact i8 s hb
    | got =>
        obtain ⟨hp, hgp, hrp⟩ :=
          reserve_pltFields_nonplt st r .got (by simp)
        have hps := pltSyms_eq_of_plt_eq _ _ hp
        refine ⟨by rw [hp, hps]; exact i1, by rw [hps]; exact i2,
          by rw [hrp, hps]; exact i3, by rw [hrp]; exact i4,
          by rw [hgp, hps]; exact i5, ?_, ?_, ?_⟩
        · intro s
          rw [hps, testBit_reserve_of_ne_idx st r .got s 3 (by decide)]
          exact i6 s
        · intro s hb
          by_cases hx : s = r.symbol
          · subst hx; exact hgotF rfl
          · rw [resState_reserve_other st r .got s hx] at hb
            exact i7 s hb
        · intro s hb
          rw [testBit_reserve_of_ne_idx st r .got s 2 (by decide)] at hb
          exact i8 s hb
    | gotRel =>
        obtain ⟨hp, hgp, hrp⟩ :=
          reserve_pltFields_nonplt st r .gotRel (by simp)
        have hps := pltSyms_eq_of_plt_eq _ _ hp
        refine ⟨by rw [hp, hps]; exact i1, by rw [hps]; exact i2,
          by rw [hrp, hps]; exact i3, by rw [hrp]; exact i4,
          by rw [hgp, hps]; exact i5, ?_, ?_, ?_⟩
        · intro s
          rw [hps, testBit_reserve_of_ne_idx st r .gotRel s 3 (by decide)]
          exact i6 s
        · intro s hb
          rw [testBit_reserve_of_ne_idx st r .gotRel s 1 (by decide)] at hb
          exact i7 s hb
        · intro s hb
          by_cases hx : s = r.symbol
          · subst hx; exact hgotRelF rfl
          · rw [resState_reserve_other st r .gotRel s hx] at hb
            exact i8 s hb
    | plt =>
        by_cases hbit : st.resState r.symbol &&& ReserveKind.plt.bit = 0
        · have hps := pltSyms_reserve_plt_clear st r hbit
          obtain ⟨hp, hgp, hrp⟩ := reserve_plt_clear_fields st r hbit
          have hnotin : r.symbol ∉ pltSyms st := by
            intro hmem
            have hT := (i6 r.symbol).mp hmem
            have h0 : (st.resState r.symbol).testBit 3 = false :=
              (land_bit_eq_zero_iff _ ReserveKind.plt).mp hbit
            rw [hT] at h0
            simp at h0
          refine ⟨?_, ?_, ?_, ?_, ?_, ?_, ?_, ?_⟩
          · rw [hp, hps, i1, List.map_append]
            rfl
          · rw [hps]
            simp [List.nodup_append, i2, hnotin]
          · rw [hrp, hps, List.map_append, i3]
            rfl
          · intro d hd
            rw [hrp] at hd
            rcases List.mem_append.mp hd with hd1 | hd2
            · exact i4 d hd1
            · simp at hd2; rw [hd2]
          · rw [hgp, hps, i5]
          · intro s
            rw [hps]
            by_cases hx : s = r.symbol
            · subst hx
              constructor
              · intro _
                rw [reserve_resState_self]
                exact testBit_lor_bit_self _ _
              · intro _
                simp
            · rw [resState_reserve_other st r .plt s hx]
              constructor
              · intro hmem
                rcases List.mem_append.mp hmem with h1 | h2
                · exact (i6 s).mp h1
                · simp at h2; exact absurd h2 hx
              · intro hb
                exact List.mem_append.mpr (Or.inl ((i6 s).mpr hb))
          · intro s hb
            rw [testBit_reserve_of_ne_idx st r .plt s 1 (by decide)] at hb
            exact i7 s hb
          · intro s hb
            rw [testBit_reserve_of_ne_idx st r .plt s 2 (by decide)] at hb
            exact i8 s hb
        · obtain ⟨_, hgp, hp, _, hrp, _⟩ := reserve_of_bit_set st r .plt hbit
          have hps := pltSyms_eq_of_plt_eq _ _ hp
          have hb3 : ∀ s, ((reserve st r .plt).resState s).testBit 3 =
              (st.resState s).testBit 3 := by
            intro s
            by_cases hx : s = r.symbol
            · subst hx
              rw [reserve_resState_self, Nat.testBit_lor]
              have hold : (st.resState r.symbol).testBit 3 = true := by
                cases hcase : (st.resState r.symbol).testBit 3 with
                | false =>
                    exact absurd ((land_bit_eq_zero_iff _
                      ReserveKind.plt).mpr hcase) hbit
                | true => rfl
              rw [hold]
              rfl
            · exact resState_reserve_other st r .plt s hx ▸ rfl
          refine ⟨by rw [hp, hps]; exact i1, by rw [hps]; exact i2,
            by rw [hrp, hps]; exact i3, by rw [hrp]; exact i4,
            by rw [hgp, hps]; exact i5, ?_, ?_, ?_⟩
          · intro s
            rw [hps, hb3 s]
            exact i6 s
          · intro s hb
            rw [testBit_reserve_of_ne_idx st r .plt s 1 (by decide)] at hb
            exact i7 s hb
          · intro s hb
            rw [testBit_reserve_of_ne_idx st r .plt s 2 (by decide)] at hb
            exact i8 s hb
  · have hps := pltSyms_eq_of_plt_eq _ _ hp
    refine ⟨by rw [hp, hps]; exact i1, by rw [hps]; exact i2,
      by rw [hrp, hps]; exact i3, by rw [hrp]; exact i4,
      by rw [hgp, hps]; exact i5, ?_, ?_, ?_⟩
    · intro s; rw [hps, hres]; exact i6 s
    · intro s; rw [hres]; exact i7 s
    · intro s; rw [hres]; exact i8 s

theorem scanReach_inv (handler : Handler) (cfg : LinkerConfig)
    (symOf : Nat → SymbolInfo) (st : LinkState)
    (h : ScanReach handler cfg symOf st) : ScanInv cfg symOf st := by
  induction h with
  | init => exact scanInv_init cfg symOf
  | step _ hok ih => exact scanInv_step _ _ _ _ _ _ _ hok ih

/-- C7: in every reachable post-scan state, PLT entry 0 is the shared PLT0
resolver trampoline (not symbol-indexed), entries 1..N are stubs in 1:1
correspondence with the N distinct PLT-reserved symbols in allocation order,
and each such symbol has exactly one JUMP_SLOT record in RelPLT and one
GOT-PLT slot. -/
theorem plt_invariants (handler : Handler) (cfg : LinkerConfig)
    (symOf : Nat → SymbolInfo) (st : LinkState)
    (h : ScanReach handler cfg symOf st) :
    st.plt.head? = some PLTEntry.plt0 ∧
    st.plt = PLTEntry.plt0 :: (pltSyms st).map PLTEntry.stub ∧
    (pltSyms st).Nodup ∧
    st.relPLT.map DynRelRecord.sym = pltSyms st ∧
    st.relPLT.all (fun d => d.type == R_386_JMP_SLOT) = true ∧
    st.gotPLT = pltSyms st ∧
    (pltSyms st).all
      (fun s => (st.relPLT.filter (fun d => d.sym == s)).length == 1) = true := by
  obtain ⟨i1, i2, i3, i4, i5, _, _, _⟩ := scanReach_inv _ _ _ _ h
  refine ⟨by rw [i1]; rfl, i1, i2, i3, ?_, i5, ?_⟩
  · rw [List.all_eq_true]
    intro d hd
    simp [i4 d hd]
  · rw [List.all_eq_true]
    intro s hs
    have hcnt : (st.relPLT.filter (fun d => d.sym == s)).length =
        (st.relPLT.map DynRelRecord.sym).count s := by
      rw [← List.countP_eq_length_filter, List.count, List.countP_map]
      rfl
    rw [hcnt, i3, List.count_eq_one_of_mem i2 hs]
    rfl

/-- C10: the combined `ReservedEntryType` values are exactly the bitwise OR
of their component requests, and no reachable reservation state ever has
both the GOT bit (value 2) and the GOTRel bit (value 4) set for the same
symbol — in particular the unnamed mask values 6 and 7 are never produced:
a symbol's GOT reservation is classified as either plain GOT or
GOT-with-relocation, never both. -/
theorem got_flavour_exclusive (handler : Handler) (cfg : LinkerConfig)
    (symOf : Nat → SymbolInfo) (st : LinkState) (s : Nat)
    (h : ScanReach handler cfg symOf st) :
    ReservedEntryType.GOTandRel =
      (ReservedEntryType.ReserveGOT ||| ReservedEntryType.ReserveRel) ∧
    ReservedEntryType.GOTRelandRel =
      (ReservedEntryType.GOTRel ||| ReservedEntryType.ReserveRel) ∧
    ReservedEntryType.PLTandRel =
      (ReservedEntryType.ReservePLT ||| ReservedEntryType.ReserveRel) ∧
    ¬((st.resState s).testBit 1 = true ∧ (st.resState s).testBit 2 = true) ∧
    st.resState s ≠ 6 ∧ st.resState s ≠ 7 := by
  obtain ⟨_, _, _, _, _, _, i7, i8⟩ := scanReach_inv _ _ _ _ h
  have hexcl : ¬((st.resState s).testBit 1 = true ∧
      (st.resState s).testBit 2 = true) := by
    intro ⟨hb1, hb2⟩
    have hf := i7 s hb1
    have ht := i8 s hb2
    rw [hf] at ht
    exact Bool.false_ne_true ht
  refine ⟨by decide, by decide, by decide, hexcl, ?_, ?_⟩
  · intro h6
    exact hexcl ⟨by rw [h6]; decide, by rw [h6]; decide⟩
  · intro h7
    exact hexcl ⟨by rw [h7]; decide, by rw [h7]; decide⟩

/-! ## Emission fidelity and layout order -/

theorem toLEBytes_length (w v : Nat) : (toLEBytes w v).length = w := by
  induction w generalizing v with
  | zero => rfl
  | succ n ih => simp [toLEBytes, ih]

theorem serializeSection_length (sec : TargetSectionContents) :
    (serializeSection sec).length = finalizedSize sec := by
  cases sec with
  | gotLike w vs =>
      simp only [serializeSection, finalizedSize]
      induction vs with
      | nil => rfl
      | cons v rest ih =>
          simp [List.flatMap_cons, toLEBytes_length, ih, Nat.mul_succ,
            Nat.add_comm]
  | pltLike stubs =>
      simp only [serializeSection, finalizedSize]
      induction stubs with
      | nil => rfl
      | cons b rest ih => simp [List.flatMap_cons, ih]

/-- C8: after sizes are finalized, `emitSectionData` either fails with
`SizeMismatch` exactly when the caller-provided region's size differs from
the previously finalized section size — writing nothing — or succeeds,
writing bytes whose length equals the finalized size and returning a byte
count equal to the finalized size. -/
theorem emitSectionData_fidelity (sec : TargetSectionContents)
    (regionSize : Nat) :
    (serializeSection sec).length = finalizedSize sec ∧
    (regionSize = finalizedSize sec →
      emitSectionData sec regionSize =
        .ok (serializeSection sec, finalizedSize sec)) ∧
    (regionSize ≠ finalizedSize sec →
      emitSectionData sec regionSize = .error .SizeMismatch) := by
  refine ⟨serializeSection_length sec, ?_, ?_⟩
  · intro heq
    rw [emitSectionData, if_pos heq]
    simp only []
    rw [serializeSection_length sec]
  · intro hne
    rw [emitSectionData, if_neg hne]

/-- C9: `getTargetSectionOrder` is a pure function assigning pairwise
distinct placement keys to the five X86 target sections (a strict total
order with no ties), placing each relocation section before the table it
describes: `.rel.plt` before `.plt` and `.got.plt`, and `.rel.dyn` before
`.got`. -/
theorem targetSectionOrder_total :
    (([TargetSectionId.relDynSec, TargetSectionId.relPLTSec,
        TargetSectionId.pltSec, TargetSectionId.gotSec,
        TargetSectionId.gotPLTSec]).map getTargetSectionOrder).Nodup ∧
    getTargetSectionOrder TargetSectionId.relPLTSec <
      getTargetSectionOrder TargetSectionId.pltSec ∧
    getTargetSectionOrder TargetSectionId.relPLTSec <
      getTargetSectionOrder TargetSectionId.gotPLTSec ∧
    getTargetSectionOrder TargetSectionId.relDynSec <
      getTargetSectionOrder TargetSectionId.gotSec := by
  decide

/-! ## Concrete instances exercising the theorems -/

/-- A non-PIC static link configuration. -/
def wCfg : LinkerConfig := ⟨false, true⟩

/-- A PIC/shared link configuration. -/
def wCfgPIC : LinkerConfig := ⟨true, false⟩

/-- A globally-bound defined function symbol. -/
def wSym : SymbolInfo := ⟨false, true, false, true, false, 4, 4⟩

/-- A defined thread-local data symbol. -/
def wSymTLS : SymbolInfo := ⟨false, true, true, false, false, 4, 4⟩

/-- A symbol table mapping every id to `wSym`. -/
def wSymTab : Nat → SymbolInfo := fun _ => wSym

/-- A symbol table mapping every id to `wSymTLS`. -/
def wSymTabTLS : Nat → SymbolInfo := fun _ => wSymTLS

/-- A handler whose decision is always a PLT entry. -/
def wHandlerPLT : Handler := fun _ _ _ => some .needPLT

/-- A handler whose decision is always a GOT entry. -/
def wHandlerGOT : Handler := fun _ _ _ => some .needGOT

/-- A handler recognizing no relocation type. -/
def wHandlerNone : Handler := fun _ _ _ => none

/-- A relocation on symbol 5. -/
def wReloc : Relocation := ⟨5, 2, 16, 0⟩

/-- A relocation on symbol 6. -/
def wRelocB : Relocation := ⟨6, 2, 20, 0⟩

/-- An initial-exec TLS relocation on symbol 5. -/
def wRelocTLS : Relocation := ⟨5, R_386_TLS_IE, 16, 0⟩

theorem scan_idempotent_reservation_witness :
    kindCount .plt 5 (reserve (reserve initState wReloc .plt) wReloc .plt) = 1 ∧
    kindCount .plt 5
      (reserve (reserve (reserve initState wReloc .plt) wReloc .plt) wReloc
        .plt) = 1 :=
  scan_idempotent_reservation wHandlerPLT wCfg wSymTab 5 .plt [wReloc, wReloc]
    initState (reserve (reserve initState wReloc .plt) wReloc .plt)
    [wReloc, wReloc] wReloc (by decide) (by decide) (by decide) (by decide)
    rfl (by decide)

theorem reservationState_is_union_of_requests_witness :
    (reserve initState wReloc .plt).resState 5 =
      initState.resState 5 ||| reqBits wHandlerPLT wCfg wSymTab wReloc 5 ∧
    ((initState.resState 5).testBit 0 = true →
      ((reserve initState wReloc .plt).resState 5).testBit 0 = true) ∧
    (reserve initState wReloc .plt).resState 5 =
      List.foldl (fun m r2 => m ||| reqBits wHandlerPLT wCfg wSymTab r2 5) 0
        [wReloc] :=
  reservationState_is_union_of_requests wHandlerPLT wCfg wSymTab initState
    (reserve initState wReloc .plt) (reserve initState wReloc .plt) wReloc
    wReloc [wReloc] [wReloc] 5 0 rfl rfl

theorem scan_order_independence_witness :
    (reserve (reserve initState wReloc .plt) wRelocB .plt).resState 5 =
      (reserve (reserve initState wRelocB .plt) wReloc .plt).resState 5 :=
  scan_order_independence wHandlerPLT wCfg wSymTab initState
    (reserve (reserve initState wReloc .plt) wRelocB .plt)
    (reserve (reserve initState wRelocB .plt) wReloc .plt)
    [wReloc, wRelocB] [wRelocB, wReloc] [wReloc, wRelocB] [wRelocB, wReloc] 5
    (by decide) rfl rfl

theorem convertTLSIEtoLE_gating_witness :
    (scanRelocation wHandlerGOT wCfg wSymTabTLS initState wRelocTLS =
        .ok (initState, convertTLSIEtoLE wRelocTLS) ∧
      (convertTLSIEtoLE wRelocTLS).type = R_386_TLS_LE) ∧
    scanRelocation wHandlerGOT wCfgPIC wSymTabTLS initState wRelocTLS =
      .ok (reserve initState wRelocTLS .gotRel, wRelocTLS) ∧
    ((reserve initState wRelocTLS .gotRel).resState
        wRelocTLS.symbol).testBit ReserveKind.gotRel.idx = true ∧
    (reserve initState wRelocTLS .gotRel).got =
      initState.got ++ [wRelocTLS.symbol] :=
  ⟨(convertTLSIEtoLE_gating wHandlerGOT wCfg wSymTabTLS initState wRelocTLS
      rfl rfl rfl).1 rfl rfl,
   ((convertTLSIEtoLE_gating wHandlerGOT wCfgPIC wSymTabTLS initState
      wRelocTLS rfl rfl rfl).2 (Or.inl rfl)).1,
   ((convertTLSIEtoLE_gating wHandlerGOT wCfgPIC wSymTabTLS initState
      wRelocTLS rfl rfl rfl).2 (Or.inl rfl)).2.1,
   ((convertTLSIEtoLE_gating wHandlerGOT wCfgPIC wSymTabTLS initState
      wRelocTLS rfl rfl rfl).2 (Or.inl rfl)).2.2 (by decide)⟩

theorem unsupported_relocation_aborts_witness :
    scanRelocation wHandlerNone wCfg wSymTab initState wReloc =
      .error .UnsupportedRelocation ∧
    scanAll wHandlerNone wCfg wSymTab initState ([] ++ wReloc :: []) =
      .error .UnsupportedRelocation :=
  unsupported_relocation_aborts wHandlerNone wCfg wSymTab initState initState
    wReloc [] [] [] rfl rfl

/-- The state reached by one PLT-reserving scan step from the pre-scan
state. -/
def wState : LinkState := reserve initState wReloc .plt

theorem plt_invariants_witness :
    wState.plt.head? = some PLTEntry.plt0 ∧
    wState.plt = PLTEntry.plt0 :: (pltSyms wState).map PLTEntry.stub ∧
    (pltSyms wState).Nodup ∧
    wState.relPLT.map DynRelRecord.sym = pltSyms wState ∧
    wState.relPLT.all (fun d => d.type == R_386_JMP_SLOT) = true ∧
    wState.gotPLT = pltSyms wState ∧
    (pltSyms wState).all
      (fun s =>
        (wState.relPLT.filter (fun d => d.sym == s)).length == 1) = true :=
  plt_invariants wHandlerPLT wCfg wSymTab wState
    (ScanReach.step ScanReach.init rfl)

theorem got_flavour_exclusive_witness :
    ReservedEntryType.GOTandRel =
      (ReservedEntryType.ReserveGOT ||| ReservedEntryType.ReserveRel) ∧
    ReservedEntryType.GOTRelandRel =
      (ReservedEntryType.GOTRel ||| ReservedEntryType.ReserveRel) ∧
    ReservedEntryType.PLTandRel =
      (ReservedEntryType.ReservePLT ||| ReservedEntryType.ReserveRel) ∧
    ¬((wState.resState 5).testBit 1 = true ∧
      (wState.resState 5).testBit 2 = true) ∧
    wState.resState 5 ≠ 6 ∧ wState.resState 5 ≠ 7 :=
  got_flavour_exclusive wHandlerPLT wCfg wSymTab wState 5
    (ScanReach.step ScanReach.init rfl)

/-- A finalized 32-bit GOT table with two entries. -/
def wSection : TargetSectionContents := .gotLike 4 [7, 9]

theorem emitSectionData_fidelity_witness :
    (serializeSection wSection).length = finalizedSize wSection ∧
    emitSectionData wSection 8 =
      .ok (serializeSection wSection, finalizedSize wSection) ∧
    emitSectionData wSection 5 = .error .SizeMismatch :=
  ⟨(emitSectionData_fidelity wSection 8).1,
   (emitSectionData_fidelity wSection 8).2.1 (by decide),
   (emitSectionData_fidelity wSection 5).2.2 (by decide)⟩

end Mcld
